import Mathlib

/- Verification of the GitHub Japanese-translation content script
   (src/unnamed/part_000) against its design specification.  The pure
   core of the script is shallowly embedded below: dictionary
   compilation and substitution (part_000 lines 190-208), the DOM
   eligibility filter (177-185), the text-node walker (110-145), the
   attribute pass (148-173), the pending remote batch and its
   reconciliation (212-268), the provider error handling (323-344) and
   initialization (23-30).  DOM trees are modelled as a forest
   datatype; the WeakSet per-node "already processed" state is
   modelled as a boolean flag stored on each text node (the
   representation the specification itself proposes in its design
   notes, section 9). -/

namespace GHJA

/-- Closed-interval membership test on naturals (helper). -/
def inRange (lo hi n : Nat) : Bool := Nat.ble lo n && Nat.ble n hi

/-- The character class appearing in the compiled patterns of
compileDictionary (part_000 line 195): a Unicode letter, a Unicode
digit, or an underscore.  The full Unicode letter/number categories
are modelled here on the scripts this development touches: ASCII,
Latin-1 and Latin-extended letters, hiragana, katakana (including the
prolonged-sound mark) and CJK ideographs. -/
def isWordChar (c : Char) : Bool :=
  c == '_' || c.isAlpha || c.isDigit ||
  (inRange 0xC0 0x24F c.toNat && !(c.toNat == 0xD7) && !(c.toNat == 0xF7)) ||
  inRange 0x3041 0x3096 c.toNat ||
  inRange 0x30A1 0x30FA c.toNat || c.toNat == 0x30FC ||
  inRange 0x4E00 0x9FFF c.toNat

/-- Case-insensitive prefix test on character lists: the first
argument (pattern characters) is a prefix of the second (text), each
character compared under simple case folding.  This models the `i`
flag of the patterns built at part_000 line 195; the script's source
phrases are ASCII, for which simple folding is `Char.toLower`. -/
def ciStartsWith : List Char → List Char → Bool
  | [], _ => true
  | _ :: _, [] => false
  | a :: as, b :: bs => (a.toLower == b.toLower) && ciStartsWith as bs

/-- The negative lookbehind of the compiled pattern: the character
before the match position (none at the start of the text) must not be
a word character. -/
def boundaryBefore : Option Char → Bool
  | none => true
  | some c => !(isWordChar c)

/-- The negative lookahead of the compiled pattern: the character
after the match (none at the end of the text) must not be a word
character. -/
def boundaryAfterOk : List Char → Bool
  | [] => true
  | c :: _ => !(isWordChar c)

/-- Whether the compiled matcher for the source phrase
`s0 :: srest` fires at the current scan position: the phrase occurs
here case-insensitively, and the surrounding characters (the previous
character `prev`, and the character following the matched span) are
not word characters.  This is the pattern
`(?<![\p{L}\p{N}_])source(?![\p{L}\p{N}_])` of part_000 line 195,
with the escaped source phrase matched literally. -/
def matchHere (s0 : Char) (srest : List Char) (prev : Option Char) (t : List Char) : Bool :=
  ciStartsWith (s0 :: srest) t && boundaryBefore prev &&
    boundaryAfterOk (t.drop (srest.length + 1))

/-- Global (`g`-flag) replacement scan of one compiled matcher over a
text, as performed by `output.replace(pattern, replacement)` at
part_000 line 205: positions are tried left to right; at a match the
replacement is emitted and scanning resumes after the matched span of
the original text (the lookbehind then sees the last matched original
character); otherwise one character is copied.  The source phrase is
non-empty by construction (`s0 :: srest`).  Every step consumes at
least one character of the text, so a fuel equal to the text length
makes the scan total by structural recursion; the fuel-exhausted arm
is unreachable when the scan starts with that fuel. -/
def replaceScan (s0 : Char) (srest : List Char) (repl : List Char) :
    Nat → Option Char → List Char → List Char
  | _, _, [] => []
  | 0, _, t => t
  | fuel + 1, prev, c :: rest =>
    if matchHere s0 srest prev (c :: rest) then
      repl ++ replaceScan s0 srest repl fuel (((c :: rest).take (srest.length + 1)).getLast?)
        ((c :: rest).drop (srest.length + 1))
    else
      c :: replaceScan s0 srest repl fuel (some c) rest

/-- Whether one compiled matcher fires anywhere in the text (same
scan as `replaceAux`, answering only whether a match exists). -/
def hasMatchAux (s0 : Char) (srest : List Char) : Option Char → List Char → Bool
  | _, [] => false
  | prev, c :: rest =>
    matchHere s0 srest prev (c :: rest) || hasMatchAux s0 srest (some c) rest

/-- One compiled dictionary matcher applied to a text, i.e. one step
of the loop of translateByDictionary (part_000 lines 204-206).  The
escaping at line 193 makes the source phrase a literal, so the
matcher is the literal boundary-aware scan above.  An empty source
phrase never occurs in the dictionary (specification section 3); it
is mapped to the identity here. -/
def applyCompiledMatcher (source target text : String) : String :=
  match source.data with
  | [] => text
  | s0 :: srest =>
    String.mk (replaceScan s0 srest target.data text.data.length none text.data)

/-- Whether the compiled matcher for `source` fires anywhere in
`text`. -/
def hasBoundedMatch (source text : String) : Bool :=
  match source.data with
  | [] => false
  | s0 :: srest => hasMatchAux s0 srest none text.data

/-- translateByDictionary (part_000 lines 201-208): every compiled
matcher is applied in dictionary list order, each one replacing over
the output of the previous one. -/
def translateByDictionary (dict : List (String × String)) (text : String) : String :=
  dict.foldl (fun out e => applyCompiledMatcher e.1 e.2 out) text

/-- Exact (case-sensitive) prefix test on character lists. -/
def listStartsWith : List Char → List Char → Bool
  | [], _ => true
  | _ :: _, [] => false
  | a :: as, b :: bs => (a == b) && listStartsWith as bs

/-- Exact substring-occurrence test on character lists. -/
def listOccurs (needle : List Char) : List Char → Bool
  | [] => listStartsWith needle []
  | c :: rest => listStartsWith needle (c :: rest) || listOccurs needle rest

/-- Exact substring-occurrence test on strings. -/
def occursIn (needle hay : String) : Bool := listOccurs needle.data hay.data

/-- Modelled from the spec: the repository's dictionary data
(`GITHUB_JA_DICTIONARY_SORTED`, referenced at part_000 line 192) is
declared in a file that is not among the provided sources.  The
entries below are exactly the ones the specification names (sections
3 and 8), in the longer-phrase-before-contained-shorter-phrase order
the specification requires. -/
def GITHUB_JA_DICTIONARY_SORTED : List (String × String) :=
  [("Pull Request", "プルリク"), ("Request", "リクエスト"),
   ("Issues", "課題"), ("Open", "開く")]

theorem replaceScan_id (s0 : Char) (srest repl : List Char) :
    ∀ (t : List Char) (fuel : Nat) (prev : Option Char),
      hasMatchAux s0 srest prev t = false →
      replaceScan s0 srest repl fuel prev t = t := by
  intro t
  induction t with
  | nil => intro fuel prev _; cases fuel <;> rfl
  | cons c rest ih =>
    intro fuel prev h
    cases fuel with
    | zero => rfl
    | succ fuel =>
      simp only [hasMatchAux, Bool.or_eq_false_iff] at h
      simp only [replaceScan, h.1, Bool.false_eq_true, if_false]
      rw [ih fuel (some c) h.2]

theorem applyCompiledMatcher_id (source target text : String)
    (h : hasBoundedMatch source text = false) :
    applyCompiledMatcher source target text = text := by
  cases hs : source.data with
  | nil => simp [applyCompiledMatcher, hs]
  | cons s0 srest =>
    simp only [hasBoundedMatch, hs] at h
    simp only [applyCompiledMatcher, hs]
    rw [replaceScan_id s0 srest target.data text.data text.data.length none h]

theorem translateByDictionary_id (dict : List (String × String)) (text : String)
    (h : ∀ e ∈ dict, hasBoundedMatch e.1 text = false) :
    translateByDictionary dict text = text := by
  induction dict with
  | nil => rfl
  | cons e ds ih =>
    unfold translateByDictionary
    rw [List.foldl_cons]
    rw [applyCompiledMatcher_id e.1 e.2 text (h e (List.mem_cons_self e ds))]
    exact ih fun x hx => h x (List.mem_cons_of_mem e hx)

/-- C1: the dictionary pass is idempotent whenever the first
application leaves no remaining source-language matches: if no
dictionary entry's matcher fires anywhere in
`translateByDictionary dict T`, then applying the pass a second time
returns `translateByDictionary dict T` unchanged. -/
theorem dictionary_pass_idempotent_when_fully_translated
    (dict : List (String × String)) (T : String)
    (h : ∀ e ∈ dict, hasBoundedMatch e.1 (translateByDictionary dict T) = false) :
    translateByDictionary dict (translateByDictionary dict T) =
      translateByDictionary dict T :=
  translateByDictionary_id dict (translateByDictionary dict T) h

/-- Witness for C1 at a concrete input: translating "Open Issues"
with the dictionary leaves no remaining matches, and the second pass
is the identity on the result. -/
theorem dictionary_pass_idempotent_witness :
    (∀ e ∈ GITHUB_JA_DICTIONARY_SORTED,
      hasBoundedMatch e.1
        (translateByDictionary GITHUB_JA_DICTIONARY_SORTED "Open Issues") = false) ∧
    translateByDictionary GITHUB_JA_DICTIONARY_SORTED
        (translateByDictionary GITHUB_JA_DICTIONARY_SORTED "Open Issues") =
      translateByDictionary GITHUB_JA_DICTIONARY_SORTED "Open Issues" :=
  ⟨by decide, dictionary_pass_idempotent_when_fully_translated
    GITHUB_JA_DICTIONARY_SORTED "Open Issues" (by decide)⟩

/-- C2 (counterexample): the claim "for every input containing
"Pull Request" ... the output contains "プルリク"" is false on the
code.  The input "xPull Request" contains "Pull Request", but the
long entry's matcher is boundary-blocked by the adjacent letter `x`,
so only the shorter entry "Request" fires and the output
"xPull リクエスト" does not contain "プルリク". -/
theorem dictionary_order_claim_counterexample :
    occursIn "Pull Request" "xPull Request" = true ∧
    translateByDictionary GITHUB_JA_DICTIONARY_SORTED "xPull Request" =
      "xPull リクエスト" ∧
    occursIn "プルリク"
      (translateByDictionary GITHUB_JA_DICTIONARY_SORTED "xPull Request") = false := by
  refine ⟨by decide, by decide, by decide⟩

/-- C2 (amended): matchers are applied in dictionary list order,
each rescanning the current output.  For an occurrence of
"Pull Request" that is not adjacent to a word character — in
particular the input "Pull Request" itself — the longer entry,
listed first, wins: the output is "プルリク", which contains
"プルリク" and not "Pullリクエスト".  The last conjunct shows the
order really is the list order: with the two entries reversed the
same input yields "Pull リクエスト" instead. -/
theorem dictionary_order_tiebreak_amended :
    translateByDictionary GITHUB_JA_DICTIONARY_SORTED "Pull Request" = "プルリク" ∧
    occursIn "プルリク" "プルリク" = true ∧
    occursIn "Pullリクエスト" "プルリク" = false ∧
    translateByDictionary [("Request", "リクエスト"), ("Pull Request", "プルリク")]
      "Pull Request" = "Pull リクエスト" := by
  refine ⟨by decide, by decide, by decide, by decide⟩

/-- C3: a compiled matcher fires exactly at source-phrase occurrences
not adjacent to a letter, digit or underscore: "API" matches in
"the API." and not inside "MyAPIWrapper", nor next to an underscore
or a digit; matching is case-insensitive in both directions; and
pattern-special characters in the source phrase are matched as
literals ("a.b" matches the text "a.b" but not "axb", unlike an
unescaped pattern dot). -/
theorem word_boundary_matching_spec :
    hasBoundedMatch "API" "the API." = true ∧
    hasBoundedMatch "API" "MyAPIWrapper" = false ∧
    hasBoundedMatch "API" "the API_x" = false ∧
    hasBoundedMatch "API" "the 3API." = false ∧
    hasBoundedMatch "api" "the API." = true ∧
    hasBoundedMatch "API" "use the api now" = true ∧
    applyCompiledMatcher "API" "えーぴーあい" "the API." = "the えーぴーあい." ∧
    applyCompiledMatcher "API" "えーぴーあい" "MyAPIWrapper" = "MyAPIWrapper" ∧
    hasBoundedMatch "a.b" "call a.b now" = true ∧
    hasBoundedMatch "a.b" "call axb now" = false := by
  refine ⟨by decide, by decide, by decide, by decide, by decide,
    by decide, by decide, by decide, by decide, by decide⟩

/- DOM model.  An element is identified for the eligibility filter by
its tag name and its attribute list; text-node traversal carries the
chain of enclosing elements (nearest parent first), which is what the
`closest` calls of shouldSkipElement consult. -/

/-- Lower-casing of a string, character by character (the
`tagName.toLowerCase()` of part_000 line 180; the tags involved are
ASCII). -/
def strToLower (s : String) : String := String.mk (s.data.map Char.toLower)

/-- Whitespace trimming from both ends (JavaScript `String.trim` as
used at part_000 lines 118 and 223; the whitespace involved is
ASCII). -/
def strTrim (s : String) : String :=
  String.mk (((s.data.dropWhile Char.isWhitespace).reverse.dropWhile
    Char.isWhitespace).reverse)

/-- Split a string at space characters (used to read a `class`
attribute as a class-name list). -/
def splitSpacesAux : List Char → List Char → List String
  | cur, [] => [String.mk cur.reverse]
  | cur, c :: rest =>
    if c == ' ' then String.mk cur.reverse :: splitSpacesAux [] rest
    else splitSpacesAux (c :: cur) rest

/-- The data of one DOM element the eligibility filter looks at. -/
structure ElemInfo where
  tag : String
  attrs : List (String × String)
deriving DecidableEq

/-- Attribute lookup, `element.getAttribute`: the value if present. -/
def getAttr (e : ElemInfo) (name : String) : Option String :=
  e.attrs.lookup name

/-- Whether the element's `class` attribute, split on spaces,
contains the given class name (models matching a `.cls` selector). -/
def hasClass (e : ElemInfo) (cls : String) : Bool :=
  (splitSpacesAux [] ((getAttr e "class").getD "").data).contains cls

/-- The class names of the region-marker selector list at part_000
line 182. -/
def skipClassNames : List String :=
  ["blob-code", "highlight", "diff-table", "CodeMirror", "cm-editor",
   "react-code-viewer", "js-code-block-container"]

/-- The tag denylist of part_000 line 181. -/
def skipTagNames : List String :=
  ["code", "pre", "kbd", "samp", "var", "script", "style", "noscript"]

/-- shouldSkipElement (part_000 lines 177-185), taking the element as
the head of its ancestor chain.  An empty chain is the null element
(line 178).  The `closest` calls examine the element itself and every
ancestor; the tag denylist examines only the element's own tag. -/
def shouldSkipElement : List ElemInfo → Bool
  | [] => true
  | e :: ancestors =>
    let chain := e :: ancestors
    chain.any (fun x => (getAttr x "data-no-translate").isSome) ||
    skipTagNames.contains (strToLower e.tag) ||
    chain.any (fun x => skipClassNames.any (fun cls => hasClass x cls)) ||
    chain.any (fun x => strToLower x.tag == "svg" || strToLower x.tag == "math")

/-- The document tree, modelled as a forest: a sibling list whose
cells are text nodes or elements.  `processed` is the per-node
"already offered to the dictionary pass" state the script keeps in
`translatedTextNodeWeakSet` (part_000 line 74), stored here as a flag
on the text node itself. -/
inductive Dom where
  | nil : Dom
  | text (value : String) (processed : Bool) (rest : Dom) : Dom
  | elem (tag : String) (attrs : List (String × String)) (children : Dom) (rest : Dom) : Dom
deriving DecidableEq

/-- The TreeWalker acceptance filter of translateTextNodesIn
(part_000 lines 112-121): the node value is non-empty, the parent
element exists and is not skipped, the trimmed value is non-empty,
and — when `onlyUntranslated` is set — the node is not already in the
processed set. -/
def acceptTextNode (chain : List ElemInfo) (value : String)
    (processed onlyUntranslated : Bool) : Bool :=
  value != "" && !(shouldSkipElement chain) && strTrim value != "" &&
    !(onlyUntranslated && processed)

/-- translateTextNodesIn (part_000 lines 110-145), tree result: every
accepted text node receives the dictionary pass; its value is
rewritten when the result is non-empty and different (line 135), and
the node is marked processed whether or not it changed (line 138).
The configuration-dependent branch at lines 130-133 calls the sync
API placeholder, which returns the original text unchanged (line
276), so the written value is the dictionary result in every case;
the placeholder's pending-set bookkeeping belongs to the separate
remote-batch walker modelled below. -/
def translateTextNodesIn (dict : List (String × String)) (onlyUntranslated : Bool)
    (chain : List ElemInfo) : Dom → Dom
  | .nil => .nil
  | .text v p rest =>
    if acceptTextNode chain v p onlyUntranslated then
      if translateByDictionary dict v != "" && translateByDictionary dict v != v then
        .text (translateByDictionary dict v) true
          (translateTextNodesIn dict onlyUntranslated chain rest)
      else
        .text v true (translateTextNodesIn dict onlyUntranslated chain rest)
    else
      .text v p (translateTextNodesIn dict onlyUntranslated chain rest)
  | .elem tag attrs children rest =>
    .elem tag attrs
      (translateTextNodesIn dict onlyUntranslated (⟨tag, attrs⟩ :: chain) children)
      (translateTextNodesIn dict onlyUntranslated chain rest)

/-- The number of node-value writes (`currentNode.nodeValue =
finalText`, part_000 line 136) a run of translateTextNodesIn
performs. -/
def walkWriteCount (dict : List (String × String)) (onlyUntranslated : Bool)
    (chain : List ElemInfo) : Dom → Nat
  | .nil => 0
  | .text v p rest =>
    (if acceptTextNode chain v p onlyUntranslated then
      (if translateByDictionary dict v != "" && translateByDictionary dict v != v
        then 1 else 0)
      else 0)
    + walkWriteCount dict onlyUntranslated chain rest
  | .elem tag attrs children rest =>
    walkWriteCount dict onlyUntranslated (⟨tag, attrs⟩ :: chain) children
    + walkWriteCount dict onlyUntranslated chain rest

theorem acceptTextNode_processed_false (chain : List ElemInfo) (v : String) :
    acceptTextNode chain v true true = false := by
  simp [acceptTextNode]

theorem walk_again_fixes (dict : List (String × String)) :
    ∀ (d : Dom) (chain : List ElemInfo),
      translateTextNodesIn dict true chain (translateTextNodesIn dict true chain d) =
        translateTextNodesIn dict true chain d := by
  intro d
  induction d with
  | nil => intro chain; rfl
  | text v p rest ih =>
    intro chain
    cases h : acceptTextNode chain v p true with
    | true =>
      cases h2 : (translateByDictionary dict v != "" && translateByDictionary dict v != v) with
      | true =>
        simp only [translateTextNodesIn, h, h2, if_true,
          acceptTextNode_processed_false, Bool.false_eq_true, if_false, ih]
      | false =>
        simp only [translateTextNodesIn, h, h2, if_true, Bool.false_eq_true, if_false,
          acceptTextNode_processed_false, ih]
    | false =>
      simp only [translateTextNodesIn, h, Bool.false_eq_true, if_false, ih]
  | elem tag attrs children rest ihc ihr =>
    intro chain
    simp only [translateTextNodesIn, ihc, ihr]

theorem walk_again_writes_nothing (dict : List (String × String)) :
    ∀ (d : Dom) (chain : List ElemInfo),
      walkWriteCount dict true chain (translateTextNodesIn dict true chain d) = 0 := by
  intro d
  induction d with
  | nil => intro chain; rfl
  | text v p rest ih =>
    intro chain
    cases h : acceptTextNode chain v p true with
    | true =>
      cases h2 : (translateByDictionary dict v != "" && translateByDictionary dict v != v) with
      | true =>
        simp only [translateTextNodesIn, h, h2, if_true, walkWriteCount,
          acceptTextNode_processed_false, Bool.false_eq_true, if_false, ih, Nat.zero_add]
      | false =>
        simp only [translateTextNodesIn, h, h2, if_true, Bool.false_eq_true, if_false,
          walkWriteCount, acceptTextNode_processed_false, ih, Nat.zero_add]
    | false =>
      simp only [translateTextNodesIn, h, Bool.false_eq_true, if_false,
        walkWriteCount, h, ih, Nat.zero_add]
  | elem tag attrs children rest ihc ihr =>
    intro chain
    simp only [translateTextNodesIn, walkWriteCount, ihc, ihr, Nat.add_zero]

/-- C6: every text node the walker visits (accepts) comes out marked
processed, whatever its text became; and a second
`translateTextNodesIn` run with `onlyUntranslated = true` over the
unchanged result of a first such run leaves the tree identical and
performs zero node-value writes. -/
theorem walker_marks_processed_and_second_run_idle
    (dict : List (String × String)) (chain : List ElemInfo) (v : String)
    (p : Bool) (rest d : Dom)
    (h : acceptTextNode chain v p true = true) :
    (∃ w, translateTextNodesIn dict true chain (.text v p rest) =
        .text w true (translateTextNodesIn dict true chain rest)) ∧
    translateTextNodesIn dict true chain (translateTextNodesIn dict true chain d) =
      translateTextNodesIn dict true chain d ∧
    walkWriteCount dict true chain (translateTextNodesIn dict true chain d) = 0 := by
  refine ⟨?_, walk_again_fixes dict d chain, walk_again_writes_nothing dict d chain⟩
  cases h2 : (translateByDictionary dict v != "" && translateByDictionary dict v != v) with
  | true =>
    exact ⟨translateByDictionary dict v, by
      simp only [translateTextNodesIn, h, h2, if_true]⟩
  | false =>
    exact ⟨v, by
      simp only [translateTextNodesIn, h, h2, if_true, Bool.false_eq_true, if_false]⟩

/-- Witness for C6 at a concrete input: a fresh "Issues" text node
directly under the body is accepted; the walker marks it processed,
and a repeated run over the translated body changes nothing and
writes nothing. -/
theorem walker_marks_processed_and_second_run_idle_witness :
    acceptTextNode [⟨"body", []⟩] "Issues" false true = true ∧
    ((∃ w, translateTextNodesIn GITHUB_JA_DICTIONARY_SORTED true [⟨"body", []⟩]
        (.text "Issues" false .nil) =
        .text w true (translateTextNodesIn GITHUB_JA_DICTIONARY_SORTED true
          [⟨"body", []⟩] .nil)) ∧
    translateTextNodesIn GITHUB_JA_DICTIONARY_SORTED true [⟨"body", []⟩]
        (translateTextNodesIn GITHUB_JA_DICTIONARY_SORTED true [⟨"body", []⟩]
          (.text "Issues" false .nil)) =
      translateTextNodesIn GITHUB_JA_DICTIONARY_SORTED true [⟨"body", []⟩]
        (.text "Issues" false .nil) ∧
    walkWriteCount GITHUB_JA_DICTIONARY_SORTED true [⟨"body", []⟩]
        (translateTextNodesIn GITHUB_JA_DICTIONARY_SORTED true [⟨"body", []⟩]
          (.text "Issues" false .nil)) = 0) :=
  ⟨by decide, walker_marks_processed_and_second_run_idle
    GITHUB_JA_DICTIONARY_SORTED [⟨"body", []⟩] "Issues" false .nil
    (.text "Issues" false .nil) (by decide)⟩

/- Attribute pass (part_000 lines 148-173). -/

/-- Whether an element is selected by the querySelectorAll selector
of part_000 lines 149-155: `input[placeholder]`,
`textarea[placeholder]`, `[aria-label]`, `[title]`, `button[title]`
(the last is subsumed by `[title]`). -/
def matchesAttrSelector (e : ElemInfo) : Bool :=
  (strToLower e.tag == "input" && (getAttr e "placeholder").isSome) ||
  (strToLower e.tag == "textarea" && (getAttr e "placeholder").isSome) ||
  (getAttr e "aria-label").isSome || (getAttr e "title").isSome

/-- The attribute names the pass translates (part_000 line 160). -/
def attributesToTranslate : List String := ["placeholder", "title", "aria-label"]

/-- The synchronous per-element attribute update (part_000 lines
160-172): each of the three attribute names that is present with a
non-empty value receives the dictionary pass, and is overwritten only
when the result differs (the remote branch of lines 167-171 resolves
later and is modelled by `applyLateAttributeResponse` below). -/
def translateElementAttributes (dict : List (String × String))
    (attrs : List (String × String)) : List (String × String) :=
  attrs.map fun a =>
    if attributesToTranslate.contains a.1 && a.2 != "" then
      if translateByDictionary dict a.2 != a.2 then (a.1, translateByDictionary dict a.2)
      else a
    else a

/-- translateAttributesForInteractiveElements (part_000 lines
148-173), synchronous part: every element in the tree that matches
the selector and passes the eligibility filter has its translatable
attributes rewritten by the dictionary pass. -/
def translateAttributesForInteractiveElements (dict : List (String × String))
    (chain : List ElemInfo) : Dom → Dom
  | .nil => .nil
  | .text v p rest =>
    .text v p (translateAttributesForInteractiveElements dict chain rest)
  | .elem tag attrs children rest =>
    let here : ElemInfo := ⟨tag, attrs⟩
    let attrs' :=
      if matchesAttrSelector here && !(shouldSkipElement (here :: chain)) then
        translateElementAttributes dict attrs
      else attrs
    .elem tag attrs'
      (translateAttributesForInteractiveElements dict (here :: chain) children)
      (translateAttributesForInteractiveElements dict chain rest)

/-- The resolution handler of the attribute pass's remote branch
(part_000 lines 168-170): when the remote translation of the
attribute's original value resolves to `text`, the handler runs
`if (text && text !== original) element.setAttribute(name, text)`.
`current` is the value the attribute holds at resolution time; the
result is the value the attribute holds afterwards. -/
def applyLateAttributeResponse (original text current : String) : String :=
  if text != "" && text != original then text else current

/-- C4 (counterexample): the claimed stale-guard does not exist in
the code.  Original attribute value "Open" is sent for remote
translation; while the request is in flight the attribute changes to
"Opened"; the response "開く" resolves, and the handler overwrites
the attribute anyway ("開く" is non-empty and differs from the
original "Open"), even though the current value "Opened" no longer
equals the original — the claim says the late response is never
written in that situation. -/
theorem late_attribute_response_counterexample :
    ("Opened" != "Open") = true ∧
    applyLateAttributeResponse "Open" "開く" "Opened" = "開く" ∧
    ("開く" != "Opened") = true := by
  refine ⟨by decide, by decide, by decide⟩

/-- C4 (amended): the late-response handler compares the resolved
text against the original value that was sent, not against the
attribute's current value: whenever the response is non-empty and
differs from the original, the attribute is overwritten with it,
whatever its current value is; the write is skipped only when the
response is empty or equals the original. -/
theorem late_attribute_response_amended (original text current other : String)
    (h1 : text ≠ "") (h2 : text ≠ original) :
    applyLateAttributeResponse original text current = text ∧
    applyLateAttributeResponse original text current =
      applyLateAttributeResponse original text other ∧
    applyLateAttributeResponse original original current = current ∧
    applyLateAttributeResponse original "" current = current := by
  refine ⟨?_, ?_, ?_, ?_⟩
  · simp [applyLateAttributeResponse, h1, h2]
  · simp [applyLateAttributeResponse, h1, h2]
  · simp [applyLateAttributeResponse]
  · simp [applyLateAttributeResponse]

/-- Witness for C4's amended theorem at a concrete input: the
response "開く" for original "Open" is written over both current
values "Opened" and "Open changed". -/
theorem late_attribute_response_amended_witness :
    ("開く" : String) ≠ "" ∧ ("開く" : String) ≠ "Open" ∧
    (applyLateAttributeResponse "Open" "開く" "Opened" = "開く" ∧
     applyLateAttributeResponse "Open" "開く" "Opened" =
       applyLateAttributeResponse "Open" "開く" "Open changed" ∧
     applyLateAttributeResponse "Open" "Open" "Opened" = "Opened" ∧
     applyLateAttributeResponse "Open" "" "Opened" = "Opened") :=
  ⟨by decide, by decide,
    late_attribute_response_amended "Open" "開く" "Opened" "Open changed"
      (by decide) (by decide)⟩

/- Remote batch translator (part_000 lines 212-268, 323-344). -/

/-- Whether a text node's value contains a Japanese character, the
test `/[ぁ-んァ-ン一-龯]/` of part_000 line 227 (hiragana ぁ..ん,
katakana ァ..ン, ideographs 一..龯). -/
def hasJapaneseChar (s : String) : Bool :=
  s.data.any fun c =>
    inRange 0x3041 0x3093 c.toNat || inRange 0x30A1 0x30F3 c.toNat ||
    inRange 0x4E00 0x9FAF c.toNat

/-- The acceptance filter of the collection walker of
requestAsyncTranslationForVisibleTextNodes (part_000 lines 218-230):
an eligible parent, a trimmed value that is non-empty and at least 4
characters, and no Japanese characters in it. -/
def asyncEligible (chain : List ElemInfo) (v : String) : Bool :=
  !(shouldSkipElement chain) && strTrim v != "" &&
    !((strTrim v).length < 4 : Bool) && !(hasJapaneseChar (strTrim v))

/-- The collection walk of part_000 lines 232-235: every eligible
text-node value is added to the pending set
(`pendingAsyncTextsSet.add`), which keeps one copy of each string in
insertion order. -/
def collectPendingTexts (chain : List ElemInfo) : Dom → List String → List String
  | .nil, acc => acc
  | .text v _ rest, acc =>
    collectPendingTexts chain rest
      (if asyncEligible chain v && !(acc.contains v) then acc ++ [v] else acc)
  | .elem tag attrs children rest, acc =>
    collectPendingTexts chain rest
      (collectPendingTexts (⟨tag, attrs⟩ :: chain) children acc)

/-- The eligible text-node values of a tree, one occurrence per node
(what the collection walker visits, before deduplication). -/
def asyncEligibleTexts (chain : List ElemInfo) : Dom → List String
  | .nil => []
  | .text v _ rest =>
    (if asyncEligible chain v then [v] else []) ++ asyncEligibleTexts chain rest
  | .elem tag attrs children rest =>
    asyncEligibleTexts (⟨tag, attrs⟩ :: chain) children ++ asyncEligibleTexts chain rest

/-- First index of a value in a list, `texts.indexOf(...)` of
part_000 line 256 (`none` where JavaScript returns -1). -/
def indexOfAux (v : String) : List String → Option Nat
  | [] => none
  | t :: ts => if t = v then some 0 else (indexOfAux v ts).map (· + 1)

/-- The acceptance filter of the reconciliation walker (part_000
lines 246-252): an eligible parent and a non-blank value. -/
def acceptForReconcile (chain : List ElemInfo) (v : String) : Bool :=
  !(shouldSkipElement chain) && strTrim v != ""

/-- The reconciliation walk of part_000 lines 245-263: every eligible
text node whose current value occurs in the request list `texts` is
replaced by the response entry at the same index, provided that entry
exists, is non-empty and differs; all other nodes are untouched, and
the processed state is not changed. -/
def applyBatchResponse (texts translated : List String) (chain : List ElemInfo) :
    Dom → Dom
  | .nil => .nil
  | .text v p rest =>
    .text
      (if acceptForReconcile chain v then
        match indexOfAux v texts with
        | none => v
        | some i =>
          match translated.get? i with
          | none => v
          | some c => if c != "" && c != v then c else v
      else v)
      p (applyBatchResponse texts translated chain rest)
  | .elem tag attrs children rest =>
    .elem tag attrs
      (applyBatchResponse texts translated (⟨tag, attrs⟩ :: chain) children)
      (applyBatchResponse texts translated chain rest)

/-- All text-node values of a tree, in document order. -/
def allTextValues : Dom → List String
  | .nil => []
  | .text v _ rest => v :: allTextValues rest
  | .elem _ _ children rest => allTextValues children ++ allTextValues rest

/-- Pointwise comparison of the text values of a tree before and
after reconciliation: same number of values, and every value that was
not among the requested strings is unchanged. -/
def valuesPreservedOutside (texts : List String) : List String → List String → Bool
  | [], [] => true
  | o :: os, n :: ns =>
    (decide (o ∈ texts) || o == n) && valuesPreservedOutside texts os ns
  | _, _ => false

/-- The debounced batch fire of part_000 lines 238-267: up to 50
distinct pending strings are drained (the pending set is cleared
whether or not they all fit), nothing happens on an empty batch, a
provider failure leaves the tree alone, and a successful response is
reconciled by value match.  The provider call itself is abstracted as
an `Except` value. -/
def runBatchCycle (pending : List String) (response : Except String (List String))
    (body : Dom) : List String × Dom :=
  if (pending.take 50).isEmpty then ([], body)
  else
    match response with
    | .error _ => ([], body)
    | .ok translated => ([], applyBatchResponse (pending.take 50) translated [] body)

/-- The response handling of translateWithDeepL (part_000 lines
340-343): a non-success HTTP status throws; otherwise the
`translations` field is read, a missing field degrading to the empty
list (`data.translations || []`). -/
def deepLParse (resOk : Bool) (status : Nat) (translations : Option (List String)) :
    Except String (List String) :=
  if resOk then
    Except.ok (translations.getD [])
  else
    Except.error ("DeepL HTTP " ++ toString status)

theorem indexOfAux_eq_none (v : String) :
    ∀ (texts : List String), v ∉ texts → indexOfAux v texts = none := by
  intro texts
  induction texts with
  | nil => intro _; rfl
  | cons t ts ih =>
    intro h
    have ht : t ≠ v := fun e => h (e ▸ List.mem_cons_self t ts)
    have hm : v ∉ ts := fun e => h (List.mem_cons_of_mem t e)
    simp [indexOfAux, ht, ih hm]

theorem valuesPreservedOutside_append (texts : List String) :
    ∀ (a a' b b' : List String),
      valuesPreservedOutside texts a a' = true →
      valuesPreservedOutside texts b b' = true →
      valuesPreservedOutside texts (a ++ b) (a' ++ b') = true := by
  intro a
  induction a with
  | nil =>
    intro a' b b' ha hb
    cases a' with
    | nil => simpa using hb
    | cons x xs => simp [valuesPreservedOutside] at ha
  | cons o os ih =>
    intro a' b b' ha hb
    cases a' with
    | nil => simp [valuesPreservedOutside] at ha
    | cons n ns =>
      simp only [valuesPreservedOutside, Bool.and_eq_true] at ha
      simp only [List.cons_append, valuesPreservedOutside, Bool.and_eq_true]
      exact ⟨ha.1, ih ns b b' ha.2 hb⟩

/-- C7: reconciliation replaces a text node only when its current
value equals one of the strings sent in the batch: for every tree,
the reconciled tree has the same text-node positions, and every value
that is not among `texts` is preserved unchanged — a fragment mutated
(or absent) between request and response is simply left alone, with
no error. -/
theorem batch_reconcile_value_match_safety (texts translated : List String) :
    ∀ (d : Dom) (chain : List ElemInfo),
      valuesPreservedOutside texts (allTextValues d)
        (allTextValues (applyBatchResponse texts translated chain d)) = true := by
  intro d
  induction d with
  | nil => intro chain; rfl
  | text v p rest ih =>
    intro chain
    simp only [applyBatchResponse, allTextValues, valuesPreservedOutside,
      Bool.and_eq_true]
    refine ⟨?_, ih chain⟩
    by_cases hv : v ∈ texts
    · simp [hv]
    · rw [indexOfAux_eq_none v texts hv]
      cases hacc : acceptForReconcile chain v <;> simp
  | elem tag attrs children rest ihc ihr =>
    intro chain
    simp only [applyBatchResponse, allTextValues]
    exact valuesPreservedOutside_append texts _ _ _ _
      (ihc (⟨tag, attrs⟩ :: chain)) (ihr chain)

theorem applyBatchResponse_nil_translated (texts : List String) :
    ∀ (d : Dom) (chain : List ElemInfo),
      applyBatchResponse texts [] chain d = d := by
  intro d
  induction d with
  | nil => intro chain; rfl
  | text v p rest ih =>
    intro chain
    simp only [applyBatchResponse, ih chain]
    cases indexOfAux v texts <;> simp [List.get?]
  | elem tag attrs children rest ihc ihr =>
    intro chain
    simp only [applyBatchResponse, ihc, ihr]

/-- C9: a failed remote batch call is discarded without retry and
without touching the tree: on a caught error (network failure or
thrown non-success status) the cycle returns the tree unchanged with
an empty pending set; a non-success DeepL HTTP status is such an
error; and a malformed success payload with no `translations` field
degrades to an empty response list, which reconciles to no
substitution at all — dictionary-pass results already in the tree are
untouched in every case. -/
theorem remote_failure_discards_batch (pending : List String) (body : Dom)
    (e : String) (status : Nat) (payload : Option (List String)) :
    runBatchCycle pending (Except.error e) body = ([], body) ∧
    runBatchCycle pending (deepLParse false status payload) body = ([], body) ∧
    runBatchCycle pending (deepLParse true status none) body = ([], body) := by
  refine ⟨?_, ?_, ?_⟩
  · unfold runBatchCycle
    cases (pending.take 50).isEmpty <;> simp
  · unfold runBatchCycle deepLParse
    cases (pending.take 50).isEmpty <;> simp
  · unfold runBatchCycle deepLParse
    cases h : (pending.take 50).isEmpty <;>
      simp [h, applyBatchResponse_nil_translated]

theorem contains_eq_false_of_not_mem (v : String) (l : List String) (h : v ∉ l) :
    l.contains v = false := by
  cases hc : l.contains v
  · rfl
  · exact absurd (List.elem_iff.mp hc) h

theorem collect_text_step (chain : List ElemInfo) (w : String) (p : Bool)
    (rest : Dom) (acc : List String) :
    collectPendingTexts chain (.text w p rest) acc =
      collectPendingTexts chain rest
        (if asyncEligible chain w = true ∧ w ∉ acc then acc ++ [w] else acc) := by
  simp only [collectPendingTexts]
  congr 1
  by_cases he : asyncEligible chain w = true
  · by_cases hm : w ∈ acc
    · have hb : (asyncEligible chain w && !(acc.contains w)) = false := by
        simp [he, List.elem_iff]
        exact hm
      have hcond : ¬(asyncEligible chain w = true ∧ w ∉ acc) := fun hc => hc.2 hm
      rw [hb, if_neg hcond]
      rfl
    · have hb : (asyncEligible chain w && !(acc.contains w)) = true := by
        simp [he]
        exact hm
      have hcond : asyncEligible chain w = true ∧ w ∉ acc := ⟨he, hm⟩
      rw [hb, if_pos hcond]
      rfl
  · have hb : (asyncEligible chain w && !(acc.contains w)) = false := by
      simp [Bool.and_eq_false_iff]
      intro hcontra
      exact absurd hcontra he
    have hcond : ¬(asyncEligible chain w = true ∧ w ∉ acc) := fun hc => he hc.1
    rw [hb, if_neg hcond]
    rfl

theorem mem_collectPendingTexts_of_mem_acc (v : String) :
    ∀ (d : Dom) (chain : List ElemInfo) (acc : List String),
      v ∈ acc → v ∈ collectPendingTexts chain d acc := by
  intro d
  induction d with
  | nil => intro chain acc h; exact h
  | text w p rest ih =>
    intro chain acc h
    rw [collect_text_step]
    apply ih
    split
    · exact List.mem_append_left _ h
    · exact h
  | elem tag attrs children rest ihc ihr =>
    intro chain acc h
    exact ihr chain _ (ihc (⟨tag, attrs⟩ :: chain) acc h)

theorem mem_collectPendingTexts_of_eligible (v : String) :
    ∀ (d : Dom) (chain : List ElemInfo) (acc : List String),
      v ∈ asyncEligibleTexts chain d → v ∈ collectPendingTexts chain d acc := by
  intro d
  induction d with
  | nil => intro chain acc h; simp [asyncEligibleTexts] at h
  | text w p rest ih =>
    intro chain acc h
    simp only [asyncEligibleTexts, List.mem_append] at h
    rw [collect_text_step]
    rcases h with h | h
    · have he : asyncEligible chain w = true := by
        by_cases hel : asyncEligible chain w = true
        · exact hel
        · simp [hel] at h
      have hv : v = w := by
        simp only [he, if_true] at h
        simpa using h
      subst hv
      apply mem_collectPendingTexts_of_mem_acc
      by_cases hm : v ∈ acc
      · have hcond : ¬(asyncEligible chain v = true ∧ v ∉ acc) := fun hc => hc.2 hm
        rw [if_neg hcond]
        exact hm
      · have hcond : asyncEligible chain v = true ∧ v ∉ acc := ⟨he, hm⟩
        rw [if_pos hcond]
        exact List.mem_append_right _ (by simp)
    · apply ih chain _ h
  | elem tag attrs children rest ihc ihr =>
    intro chain acc h
    simp only [asyncEligibleTexts, List.mem_append] at h
    rcases h with h | h
    · exact mem_collectPendingTexts_of_mem_acc v rest chain _
        (ihc (⟨tag, attrs⟩ :: chain) acc h)
    · exact ihr chain _ h

theorem nodup_append_singleton (v : String) :
    ∀ (l : List String), l.Nodup → v ∉ l → (l ++ [v]).Nodup := by
  intro l
  induction l with
  | nil => intro _ _; simp
  | cons a as ih =>
    intro hn hm
    simp only [List.nodup_cons] at hn
    simp only [List.cons_append, List.nodup_cons]
    refine ⟨?_, ih hn.2 (fun h2 => hm (List.mem_cons_of_mem a h2))⟩
    intro hmem
    rcases List.mem_append.mp hmem with h | h
    · exact hn.1 h
    · have hav : a = v := by simpa using h
      subst hav
      exact hm (List.mem_cons_self a as)

theorem collectPendingTexts_nodup :
    ∀ (d : Dom) (chain : List ElemInfo) (acc : List String),
      acc.Nodup → (collectPendingTexts chain d acc).Nodup := by
  intro d
  induction d with
  | nil => intro chain acc h; exact h
  | text w p rest ih =>
    intro chain acc h
    rw [collect_text_step]
    apply ih
    split
    next hcond => exact nodup_append_singleton w acc h hcond.2
    next => exact h
  | elem tag attrs children rest ihc ihr =>
    intro chain acc h
    exact ihr chain _ (ihc (⟨tag, attrs⟩ :: chain) acc h)

/-- The body used by the specification's batch-dedup test: five text
nodes with the value "Open" under one paragraph. -/
def fiveOpenBody : Dom :=
  .elem "body" []
    (.elem "p" []
      (.text "Open" false (.text "Open" false (.text "Open" false
        (.text "Open" false (.text "Open" false .nil))))) .nil) .nil

/-- C5: the pending batch holds each distinct string at most once no
matter how many fragments contain it (a body with five "Open"
fragments yields the one-entry pending list ["Open"]); the outbound
call sends at most 50 distinct strings; firing the batch clears the
pending set, so excess strings are dropped for that cycle; and any
string still eligible in the tree on a later collection walk is
re-added to the pending set (the retry path). -/
theorem pending_batch_dedup_and_cap (pending : List String) (d : Dom)
    (v : String) (response : Except String (List String)) (body : Dom)
    (h : pending.Nodup) :
    (collectPendingTexts [] d pending).Nodup ∧
    ((collectPendingTexts [] d pending).take 50).Nodup ∧
    ((collectPendingTexts [] d pending).take 50).length ≤ 50 ∧
    (runBatchCycle pending response body).1 = [] ∧
    (v ∈ asyncEligibleTexts [] d → v ∈ collectPendingTexts [] d pending) ∧
    collectPendingTexts [] fiveOpenBody [] = ["Open"] := by
  have hn : (collectPendingTexts [] d pending).Nodup :=
    collectPendingTexts_nodup d [] pending h
  refine ⟨hn, List.Nodup.sublist (List.take_sublist 50 _) hn, ?_, ?_, ?_, by decide⟩
  · rw [List.length_take]
    exact Nat.min_le_left 50 _
  · unfold runBatchCycle
    split
    · rfl
    · cases response <;> rfl
  · exact fun hm => mem_collectPendingTexts_of_eligible v d [] pending hm

/-- Witness for C5 at concrete inputs: the empty pending set is
duplicate-free, and the five-"Open" body collects to the single
entry ["Open"]. -/
theorem pending_batch_dedup_and_cap_witness :
    (List.Nodup ([] : List String)) ∧
    ((collectPendingTexts [] fiveOpenBody []).Nodup ∧
     ((collectPendingTexts [] fiveOpenBody []).take 50).Nodup ∧
     ((collectPendingTexts [] fiveOpenBody []).take 50).length ≤ 50 ∧
     (runBatchCycle [] (Except.ok []) fiveOpenBody).1 = [] ∧
     ("Open" ∈ asyncEligibleTexts [] fiveOpenBody →
       "Open" ∈ collectPendingTexts [] fiveOpenBody []) ∧
     collectPendingTexts [] fiveOpenBody [] = ["Open"]) :=
  ⟨List.nodup_nil,
    pending_batch_dedup_and_cap [] fiveOpenBody "Open" (Except.ok []) fiveOpenBody
      List.nodup_nil⟩

/- Configuration, initialization and the observation loop (part_000
lines 11-30, 76-99). -/

/-- The configuration record of part_000 lines 11-18. -/
structure Configuration where
  isEnabledOnGithub : Bool
  useTranslationApi : Bool
  translationProvider : String
  translationApiKey : String
  translationRegion : String
  translationAggressiveness : String
deriving DecidableEq

/-- The default configuration (part_000 lines 11-18). -/
def defaultConfiguration : Configuration :=
  ⟨true, false, "None", "", "", "balanced"⟩

/-- The document as initialization sees it: the root element's `lang`
attribute and the body tree. -/
structure HtmlDocument where
  lang : String
  body : Dom
deriving DecidableEq

/-- translateEntireDocumentNow (part_000 lines 92-95): the full
text-node walk (all fragments, `onlyUntranslated = false`) followed
by the attribute pass. -/
def translateEntireDocumentNow (dict : List (String × String)) (body : Dom) : Dom :=
  translateAttributesForInteractiveElements dict []
    (translateTextNodesIn dict false [] body)

/-- One debounced observation cycle (part_000 lines 79-83): if the
engine is disabled nothing happens; otherwise
translateNewOrChangedNodes — the walk restricted to unprocessed
fragments (line 98) — runs, followed by the attribute pass. -/
def observeMutationCycle (cfg : Configuration) (dict : List (String × String))
    (body : Dom) : Dom :=
  if cfg.isEnabledOnGithub then
    translateAttributesForInteractiveElements dict []
      (translateTextNodesIn dict true [] body)
  else body

/-- initializeJapaneseTranslator (part_000 lines 23-30): the document
root's `lang` attribute is set to "ja" first; only then is the stored
configuration consulted, and when the engine is disabled the function
returns without any further document work (the observer, the keyboard
listener and the message listeners are registered only on the enabled
path, lines 30-66). -/
def initializeJapaneseTranslator (cfg : Configuration)
    (dict : List (String × String)) (doc : HtmlDocument) : HtmlDocument :=
  let doc1 : HtmlDocument := { doc with lang := "ja" }
  if cfg.isEnabledOnGithub then
    { doc1 with body := translateEntireDocumentNow dict doc1.body }
  else doc1

/-- The configuration of the end-to-end scenario of C8:
enabled, remote API off. -/
def scenarioConfiguration : Configuration :=
  ⟨true, false, "None", "", "", "balanced"⟩

/-- The body of the end-to-end scenario of C8 before translation. -/
def scenarioBody : Dom :=
  .elem "body" []
    (.elem "p" [] (.text "Issues" false .nil)
      (.elem "pre" [] (.text "Issues" false .nil) .nil)) .nil

/-- The body of the end-to-end scenario of C8 after the initial run:
the paragraph text is translated and marked processed, the
preformatted block is untouched. -/
def scenarioBodyAfter : Dom :=
  .elem "body" []
    (.elem "p" [] (.text "課題" true .nil)
      (.elem "pre" [] (.text "Issues" false .nil) .nil)) .nil

/-- C8: with configuration enabled and the remote API off, the
initial run turns body `<p>Issues</p><pre>Issues</pre>` into
`<p>課題</p><pre>Issues</pre>` — the text inside the ineligible
`<pre>` region is not modified — and any number of further
observation cycles leaves the whole body, the `<pre>` content
included, byte-identical. -/
theorem ineligible_regions_untouched_end_to_end (n : Nat) :
    initializeJapaneseTranslator scenarioConfiguration GITHUB_JA_DICTIONARY_SORTED
      ⟨"en", scenarioBody⟩ = ⟨"ja", scenarioBodyAfter⟩ ∧
    (observeMutationCycle scenarioConfiguration GITHUB_JA_DICTIONARY_SORTED)^[n]
      scenarioBodyAfter = scenarioBodyAfter ∧
    allTextValues (.elem "pre" [] (.text "Issues" false .nil) .nil) = ["Issues"] := by
  refine ⟨by decide, ?_, by decide⟩
  have hfix : observeMutationCycle scenarioConfiguration GITHUB_JA_DICTIONARY_SORTED
      scenarioBodyAfter = scenarioBodyAfter := by decide
  induction n with
  | zero => rfl
  | succ n ih => rw [Function.iterate_succ_apply', ih, hfix]

/-- C10: when the stored configuration has the engine disabled,
initialization still sets the document root's `lang` attribute to
"ja" (the write happens before the configuration check), and that is
the only document modification: the body is returned untouched. -/
theorem disabled_init_sets_lang_only (cfg : Configuration)
    (dict : List (String × String)) (doc : HtmlDocument)
    (h : cfg.isEnabledOnGithub = false) :
    initializeJapaneseTranslator cfg dict doc = ⟨"ja", doc.body⟩ := by
  simp [initializeJapaneseTranslator, h]

/-- Witness for C10 at a concrete input: a disabled configuration and
the scenario body; initialization only rewrites the `lang`
attribute. -/
theorem disabled_init_sets_lang_only_witness :
    (⟨false, false, "None", "", "", "balanced"⟩ : Configuration).isEnabledOnGithub
      = false ∧
    initializeJapaneseTranslator ⟨false, false, "None", "", "", "balanced"⟩
      GITHUB_JA_DICTIONARY_SORTED ⟨"en", scenarioBody⟩ = ⟨"ja", scenarioBody⟩ :=
  ⟨rfl, disabled_init_sets_lang_only ⟨false, false, "None", "", "", "balanced"⟩
    GITHUB_JA_DICTIONARY_SORTED ⟨"en", scenarioBody⟩ rfl⟩

end GHJA
